import Mathlib

/-!
# A verified model of `src/crawler.py` (DocCrawler)

This file shallow-embeds the documentation crawler of this repository in
Lean 4.  The crawler's external collaborators (the network transport used
by `trafilatura`, the HTML parsing done by `requests` + BeautifulSoup, the
`MarkItDown` converter, the filesystem, and the standard-library
`urllib.robotparser.RobotFileParser` / `urllib.parse.urlparse`) are
modelled as an explicit environment; failures of fallible collaborators
are values (`Option` / `Bool` flags) rather than exceptions, mirroring the
`try`/`except` structure of the Python code.

The crawler itself (`DocCrawler.is_valid_url`, `DocCrawler.extract_links`,
`DocCrawler.crawl`, `DocCrawler._save_content`, `DocCrawler.__init__`'s
robots handling and `DocCrawler._get_crawl_delay`) is translated
line-by-line.  The recursive `crawl` is embedded as a fuel-indexed
function `crawlF`; `none` means the fuel bound was hit (the Python
recursion has no such bound, so theorems about real executions carry a
`= some r` hypothesis, and a separate theorem shows enough fuel always
exists on finite link graphs).
-/

/-! ## Python string helpers -/

/-- Python truthiness of an optional string (`if not downloaded: ...`):
`None` and the empty string are falsy. -/
def pyTruthyStr : Option String → Bool
  | none => false
  | some s => !s.toList.isEmpty

/-- Does `needle` occur at the head of `hay`? -/
def strHeadMatch : List Char → List Char → Bool
  | [], _ => true
  | _ :: _, [] => false
  | a :: as, b :: bs => a == b && strHeadMatch as bs

/-- Python's `s.endswith(suffix)`.  (A transparent implementation of
`String.endsWith`, kept kernel-reducible.) -/
def endsWithStr (s suffix : String) : Bool :=
  strHeadMatch suffix.toList.reverse s.toList.reverse

/-- Does `needle` occur contiguously anywhere in `hay`?  (Python's
`needle in hay` on strings.) -/
def hasSubList (needle : List Char) : List Char → Bool
  | [] => strHeadMatch needle []
  | b :: t => strHeadMatch needle (b :: t) || hasSubList needle t

/-- Python's substring test `needle in s`. -/
def containsSub (needle s : String) : Bool :=
  hasSubList needle.toList s.toList

/-! ## The robots policy: `urllib.robotparser.RobotFileParser`

`DocCrawler.__init__` delegates policy loading to the standard library's
`RobotFileParser`.  The fragment of that class that the crawler's
behaviour depends on is modelled here, following CPython's
`Lib/urllib/robotparser.py`:

* `read()` opens the robots URL.  An `HTTPError` is handled inside
  `read()` itself: 401/403 set `disallow_all`, other 4xx set `allow_all`,
  and nothing is raised.  Any other exception (e.g. `URLError` on a
  network failure) propagates to the caller, leaving the parser in its
  freshly-constructed state.  On success the document is parsed, which
  also sets `last_checked` (via `modified()`).
* `can_fetch` returns `False` when `disallow_all`, `True` when
  `allow_all`, and — crucially — `False` for every URL while
  `last_checked` is still 0 (i.e. when `parse` never ran).
* `crawl_delay` and `request_rate` both return `None` while
  `last_checked` is 0, else the directive parsed for the agent. -/

/-- A `Request-rate: requests/seconds` directive. -/
structure RequestRate where
  requests : Nat
  seconds : Nat
deriving DecidableEq, Repr

/-- The data obtained by a successful parse of robots.txt, specialised to
the queries the crawler performs: the allow/deny decision per
(user-agent, url), and the `Crawl-delay` / `Request-rate` directives as
returned for agent `"*"`. -/
structure ParsedRobots where
  rules : String → String → Bool
  delay_dir : Option Nat
  rate_dir : Option RequestRate

/-- Outcome of `urllib.request.urlopen` on the robots URL, as seen by
`RobotFileParser.read`. -/
inductive RobotsFetch where
  | ok (p : ParsedRobots)
  | httpError (code : Nat)
  | raised

/-- The `RobotFileParser` state the crawler keeps in `self.rp`.
`parsed = some p` corresponds to `last_checked ≠ 0` (i.e. `parse` ran). -/
structure RFP where
  disallow_all : Bool
  allow_all : Bool
  parsed : Option ParsedRobots

/-- A freshly constructed `RobotFileParser()`. -/
def RFP.fresh : RFP :=
  { disallow_all := false, allow_all := false, parsed := none }

/-- `RobotFileParser.read`, together with the flag telling whether an
exception escaped it (that is the only case in which the crawler's
`except` branch runs and prints its warning). -/
def RFP.read : RobotsFetch → RFP × Bool
  | RobotsFetch.ok p => ({ RFP.fresh with parsed := some p }, false)
  | RobotsFetch.httpError code =>
      if code = 401 ∨ code = 403 then ({ RFP.fresh with disallow_all := true }, false)
      else if 400 ≤ code ∧ code < 500 then ({ RFP.fresh with allow_all := true }, false)
      else (RFP.fresh, false)
  | RobotsFetch.raised => (RFP.fresh, true)

/-- `RobotFileParser.can_fetch`. -/
def RFP.can_fetch (rp : RFP) (agent url : String) : Bool :=
  if rp.disallow_all then false
  else if rp.allow_all then true
  else
    match rp.parsed with
    | none => false
    | some p => p.rules agent url

/-- `RobotFileParser.crawl_delay("*")`: `None` until a parse happened. -/
def RFP.delay_q (rp : RFP) : Option Nat :=
  rp.parsed.bind (fun p => p.delay_dir)

/-- `RobotFileParser.request_rate("*")`: `None` until a parse happened. -/
def RFP.rate_q (rp : RFP) : Option RequestRate :=
  rp.parsed.bind (fun p => p.rate_dir)

/-! ## Delay resolution: `DocCrawler._get_crawl_delay` and `__init__`

The Python body is
`return float(self.rp.crawl_delay("*") or self.rp.request_rate("*").seconds)`
inside `try ... except (AttributeError, TypeError): return None`.
Python's `or` takes the right operand whenever the left one is falsy,
i.e. `None` **or zero**; `request_rate("*")` being `None` makes
`.seconds` raise `AttributeError`, which the `except` turns into `None`.
`__init__` then runs `self.crawl_delay = self._get_crawl_delay() or 1.0`,
again by truthiness, so a resolved `0.0` also becomes `1.0`.
Delays are modelled as rationals (the Python floats in play are exact
small integers or `1.0`). -/

/-- `DocCrawler._get_crawl_delay` (Python name `_get_crawl_delay`). -/
def get_crawl_delay (rp : RFP) : Option Rat :=
  match rp.delay_q with
  | some n =>
      if n ≠ 0 then some (n : Rat)
      else
        match rp.rate_q with
        | some rr => some (rr.seconds : Rat)
        | none => none
  | none =>
      match rp.rate_q with
      | some rr => some (rr.seconds : Rat)
      | none => none

/-- `self.crawl_delay = self._get_crawl_delay() or 1.0` in
`DocCrawler.__init__`. -/
def init_delay (rp : RFP) : Rat :=
  match get_crawl_delay rp with
  | some d => if d ≠ 0 then d else 1
  | none => 1

/-! ## URLs and the environment -/

/-- The components of `urllib.parse.urlparse` that the crawler reads. -/
structure Parsed where
  netloc : String
  path : String

/-- The crawler's configuration and its external collaborators.

* `urlparse` — `urllib.parse.urlparse` (network location and path).
* `rp` — the `RobotFileParser` state after `__init__` ran `rp.read()`.
* `fetch_url` — `trafilatura.fetch_url`; `none` covers both a falsy
  return and a raised exception (caught by `crawl`'s `except`), since the
  two lead to the same crawler state.
* `extrac` — `trafilatura.extract`, applied to the downloaded document.
* `links_ok` — whether `requests.get` + BeautifulSoup succeeded in
  `extract_links` (its `except` branch returns the empty set).
* `page_links` — the absolute URLs obtained from the page's `<a href>`
  attributes after `urljoin`, in document order.
* `convert` — `MarkItDown().convert`; `none` models the exception that
  `_save_content` catches by falling back to the raw text.
* `write_ok` — whether appending to the single output file succeeds. -/
structure Env where
  base_url : String
  user_agent : String
  urlparse : String → Parsed
  rp : RFP
  fetch_url : String → Option String
  extrac : String → Option String
  links_ok : String → Bool
  page_links : String → List String
  convert : String → Option String
  write_ok : Bool

/-- `self.crawl_delay` as computed by `__init__`. -/
def Env.delay (env : Env) : Rat :=
  init_delay env.rp

/-- `DocCrawler.is_valid_url`, translated clause by clause (same domain;
path ends with `.html` or `/`; path free of `/_sources/` and
`/_static/`; robots allows the fetch for the configured agent). -/
def is_valid_url (env : Env) (url : String) : Bool :=
  let parsed_base := env.urlparse env.base_url
  let parsed_url := env.urlparse url
  if parsed_url.netloc ≠ parsed_base.netloc then false
  else if !(endsWithStr parsed_url.path ".html" || endsWithStr parsed_url.path "/") then false
  else if containsSub "/_sources/" parsed_url.path || containsSub "/_static/" parsed_url.path then false
  else env.rp.can_fetch env.user_agent url

/-- `DocCrawler.extract_links`: on success, the page's absolute links
filtered through `is_valid_url`; on any exception, the empty set.
(Python returns a `set`; the model keeps document order, which no claim
depends on.) -/
def extract_links (env : Env) (url : String) : List String :=
  if env.links_ok url then (env.page_links url).filter (fun l => is_valid_url env l)
  else []

/-! ## The crawl: state, events, and the recursive traversal

`DocCrawler.crawl` mutates `self.visited_urls`, appends to the single
output file (via `_save_content`), sleeps, and performs network calls.
The model threads an explicit `CrawlState` and records the externally
visible actions in an event trace, in chronological order:

* `Ev.sleep d` — `time.sleep(self.crawl_delay)`;
* `Ev.fetch u` — the traversal's page fetch, `trafilatura.fetch_url(u)`;
* `Ev.get u` — the extra `requests.get(u)` that `extract_links` performs
  while re-reading the page for its anchors. -/

/-- An externally visible action of the crawler. -/
inductive Ev where
  | sleep (d : Rat)
  | fetch (url : String)
  | get (url : String)
deriving DecidableEq, Repr

/-- The crawler's mutable state: `self.visited_urls` (most recent first;
elements are distinct because an add only follows a failed membership
test), the records appended to the aggregate output file (source URL and
content, oldest first), and the event trace. -/
structure CrawlState where
  visited : List String
  out : List (String × String)
  trace : List Ev
deriving DecidableEq, Repr

/-- The state right after `DocCrawler.__init__`: nothing visited, empty
output, no events. -/
def initState : CrawlState :=
  { visited := [], out := [], trace := [] }

/-- `DocCrawler._save_content`: convert with `MarkItDown` (falling back
to the raw text when the converter raises) and append one record to the
single output file; a write failure is caught and logged, leaving the
artifact unchanged.  The record's header formatting and timestamp are not
modelled.  `markdownOf` is the converter `try`/`except`: `MarkItDown`'s
result, or the raw text when it raises. -/
def markdownOf (env : Env) (content : String) : String :=
  match env.convert content with
  | some m => m
  | none => content

def save_content (env : Env) (s : CrawlState) (url content : String) : CrawlState :=
  if env.write_ok then { s with out := s.out ++ [(url, markdownOf env content)] }
  else s

/-- The guard `max_pages is not None and len(self.visited_urls) >= max_pages`.
`max_pages` is a Python `int`, so it is modelled as `Int` (the CLI accepts
negative values). -/
def budgetHit (mp : Option Int) (n : Nat) : Bool :=
  match mp with
  | none => false
  | some k => (n : Int) ≥ k

/-- The `for link in links: self.crawl(link, max_pages)` loop, for a given
one-page step function `rec`; `none` (fuel exhaustion) propagates. -/
def crawlLoop (rec : CrawlState → String → Option CrawlState) :
    CrawlState → List String → Option CrawlState
  | s, [] => some s
  | s, l :: ls =>
      match rec s l with
      | none => none
      | some s' => crawlLoop rec s' ls

/-- The state after `self.visited_urls.add(url)` (source line 156),
`time.sleep(self.crawl_delay)` (line 161) and the start of
`trafilatura.fetch_url(url)` (line 164): `url` is marked visited and the
sleep and fetch events are recorded. -/
def visitMark (env : Env) (s : CrawlState) (url : String) : CrawlState :=
  { s with visited := url :: s.visited,
           trace := s.trace ++ [Ev.sleep env.delay, Ev.fetch url] }

/-- The `requests.get(url)` that `extract_links` performs, recorded as an
event. -/
def linkMark (s : CrawlState) (url : String) : CrawlState :=
  { s with trace := s.trace ++ [Ev.get url] }

/-- One unfolding of `DocCrawler.crawl` on `url`, with `rec` standing for
the recursive calls on discovered links.  Mirrors the source order:
visited check, budget check, add to visited + sleep + fetch
(`visitMark`), the two falsy-result early returns (`downloaded` and
`content` are written out instead of being named by `let`s),
`_save_content`, `extract_links` (whose `requests.get` is `linkMark`),
then the `for link in links` loop. -/
def crawlStep (env : Env) (mp : Option Int)
    (rec : CrawlState → String → Option CrawlState)
    (s : CrawlState) (url : String) : Option CrawlState :=
  if url ∈ s.visited then some s
  else if budgetHit mp s.visited.length then some s
  else if pyTruthyStr (env.fetch_url url) = false then some (visitMark env s url)
  else if pyTruthyStr (env.extrac ((env.fetch_url url).getD "")) = false then
    some (visitMark env s url)
  else
    crawlLoop rec
      (linkMark
        (save_content env (visitMark env s url) url
          ((env.extrac ((env.fetch_url url).getD "")).getD ""))
        url)
      (extract_links env url)

/-- `DocCrawler.crawl`, indexed by fuel bounding the recursion depth;
`none` means the bound was hit.  Defined through `Nat.rec` so that
applications at literal fuel reduce definitionally. -/
def crawlF (env : Env) (mp : Option Int) (fuel : Nat) :
    CrawlState → String → Option CrawlState :=
  Nat.rec (motive := fun _ => CrawlState → String → Option CrawlState)
    (fun _ _ => none)
    (fun _ ih => crawlStep env mp ih)
    fuel

/-! ## Trace observations -/

/-- The URLs passed to `trafilatura.fetch_url`, in order. -/
def fetchTargets (l : List Ev) : List String :=
  l.filterMap (fun e =>
    match e with
    | Ev.fetch u => some u
    | _ => none)

/-- `fetchesDelayed d prev l` holds when, within `l` run after a previous
event `prev`, every `Ev.fetch` is immediately preceded by `Ev.sleep d`. -/
def fetchesDelayed (d : Rat) : Option Ev → List Ev → Bool
  | _, [] => true
  | prev, e :: rest =>
      (match e with
       | Ev.fetch _ => decide (prev = some (Ev.sleep d))
       | _ => true) && fetchesDelayed d (some e) rest

/-! ## Monotone evolution of the state -/

/-- The crawl only grows its state: visited URLs are kept (new ones are
consed on), and the trace and output records are appended to. -/
def StateEvolve (s r : CrawlState) : Prop :=
  (∃ a, r.visited = a ++ s.visited) ∧ (∃ b, r.trace = s.trace ++ b) ∧
    (∃ c, r.out = s.out ++ c)

/-! ## At-most-once fetch: invariant -/

/-- The fetch targets so far are pairwise distinct, and each of them is
already in the visited set. -/
def GoodFetch (s : CrawlState) : Prop :=
  (fetchTargets s.trace).Nodup ∧ ∀ v ∈ fetchTargets s.trace, v ∈ s.visited

/-! ## Fetch count vs. visited count -/

/-- Between two states of one run, the number of new fetch events is at
most the number of newly visited URLs (each fetch is paired with the
`visited_urls.add` just before it). -/
def FetchLe (s r : CrawlState) : Prop :=
  (fetchTargets r.trace).length + s.visited.length ≤
    (fetchTargets s.trace).length + r.visited.length

/-! ## Politeness: every fetch starts right after the sleep -/

/-- The last event of `p :: l` (`p` when `l` is empty). -/
def lastEv (p : Option Ev) : List Ev → Option Ev
  | [] => p
  | e :: rest => lastEv (some e) rest

/-- A well-delayed trace stays well-delayed whatever event precedes it. -/
def Delayed (d : Rat) (s : CrawlState) : Prop :=
  ∀ p, fetchesDelayed d p s.trace = true

/-! ## The page budget, once reached, stays reached -/

/-- `max_pages` is set and the visited set has reached it. -/
def BudgetReached (mp : Option Int) (s : CrawlState) : Prop :=
  ∃ k, mp = some k ∧ k ≤ (s.visited.length : Int)

/-! ## Termination on finite link universes -/

/-- How many URLs of the universe `U` are not yet in `vis`. -/
def newCount (U vis : List String) : Nat :=
  (U.toFinset \ vis.toFinset).card

/-! ## Concrete example data

A small documentation site used to witness the theorems on concrete
runs: base `https://d/x/` (netloc `d`), whose root page links to
`a.html` (in scope), `bad` (off-domain) and `b.html` (in scope), with
`a.html` linking back to the root (a cycle).  robots.txt parses fine and
allows everything, with no delay directives. -/

def exRobots : ParsedRobots :=
  { rules := fun _ _ => true, delay_dir := none, rate_dir := none }

def exParse : String → Parsed
  | "https://d/x/" => { netloc := "d", path := "/x/" }
  | "https://d/x/a.html" => { netloc := "d", path := "/x/a.html" }
  | "https://d/x/b.html" => { netloc := "d", path := "/x/b.html" }
  | "bad" => { netloc := "other", path := "/y/" }
  | _ => { netloc := "d", path := "/x/" }

def exEnv : Env :=
  { base_url := "https://d/x/"
    user_agent := "DocCrawler/1.0"
    urlparse := exParse
    rp := (RFP.read (RobotsFetch.ok exRobots)).1
    fetch_url := fun u => if u = "bad" then none else some "doc"
    extrac := fun _ => some "text"
    links_ok := fun _ => true
    page_links := fun u =>
      if u = "https://d/x/" then ["https://d/x/a.html", "bad", "https://d/x/b.html"]
      else if u = "https://d/x/a.html" then ["https://d/x/"]
      else []
    convert := fun c => some c
    write_ok := true }

/-- The full crawl of the example site from its root (no budget). -/
def exRunAll : CrawlState :=
  { visited := ["https://d/x/b.html", "https://d/x/a.html", "https://d/x/"]
    out := [("https://d/x/", "text"), ("https://d/x/a.html", "text"),
            ("https://d/x/b.html", "text")]
    trace := [Ev.sleep 1, Ev.fetch "https://d/x/", Ev.get "https://d/x/",
              Ev.sleep 1, Ev.fetch "https://d/x/a.html", Ev.get "https://d/x/a.html",
              Ev.sleep 1, Ev.fetch "https://d/x/b.html", Ev.get "https://d/x/b.html"] }

/-- The same crawl stopped by `max_pages = 1`. -/
def exRunOne : CrawlState :=
  { visited := ["https://d/x/"]
    out := [("https://d/x/", "text")]
    trace := [Ev.sleep 1, Ev.fetch "https://d/x/", Ev.get "https://d/x/"] }

/-- The crawl seeded at the off-domain URL `bad` (whose fetch fails). -/
def exRunBad : CrawlState :=
  { visited := ["bad"], out := [], trace := [Ev.sleep 1, Ev.fetch "bad"] }

/-- A robots state declaring `Crawl-delay: 0` and `Request-rate: 1/5`. -/
def rpDelayZero : RFP :=
  { disallow_all := false, allow_all := false
    parsed := some { rules := fun _ _ => true, delay_dir := some 0,
                     rate_dir := some { requests := 1, seconds := 5 } } }

/-- A robots state declaring `Crawl-delay: 7` and no request rate. -/
def rpSeven : RFP :=
  { disallow_all := false, allow_all := false
    parsed := some { rules := fun _ _ => true, delay_dir := some 7, rate_dir := none } }

/-! ## Theorems -/

theorem crawlF_zero (env : Env) (mp : Option Int) (s : CrawlState) (u : String) :
    crawlF env mp 0 s u = none := rfl

theorem crawlF_succ (env : Env) (mp : Option Int) (n : Nat) (s : CrawlState) (u : String) :
    crawlF env mp (n + 1) s u = crawlStep env mp (crawlF env mp n) s u := rfl

/-! ## Small projection lemmas -/

theorem visitMark_visited (env : Env) (s : CrawlState) (url : String) :
    (visitMark env s url).visited = url :: s.visited := rfl

theorem visitMark_out (env : Env) (s : CrawlState) (url : String) :
    (visitMark env s url).out = s.out := rfl

theorem visitMark_trace (env : Env) (s : CrawlState) (url : String) :
    (visitMark env s url).trace = s.trace ++ [Ev.sleep env.delay, Ev.fetch url] := rfl

theorem linkMark_visited (s : CrawlState) (url : String) :
    (linkMark s url).visited = s.visited := rfl

theorem linkMark_out (s : CrawlState) (url : String) :
    (linkMark s url).out = s.out := rfl

theorem linkMark_trace (s : CrawlState) (url : String) :
    (linkMark s url).trace = s.trace ++ [Ev.get url] := rfl

theorem save_content_visited (env : Env) (s : CrawlState) (url content : String) :
    (save_content env s url content).visited = s.visited := by
  unfold save_content
  split <;> rfl

theorem save_content_trace (env : Env) (s : CrawlState) (url content : String) :
    (save_content env s url content).trace = s.trace := by
  unfold save_content
  split <;> rfl

theorem save_content_out (env : Env) (s : CrawlState) (url content : String) :
    ∃ o, (save_content env s url content).out = s.out ++ o := by
  unfold save_content
  split
  · exact ⟨_, rfl⟩
  · exact ⟨[], (List.append_nil _).symm⟩

/-! ## Case analysis of one crawl step -/

/-- Every way `crawlStep` can return a state: an immediate return
(already visited, or budget reached), a page-local failure (fetch or
extraction falsy), or the success path ending in the recursion loop over
the extracted links. -/
theorem crawlStep_split (env : Env) (mp : Option Int)
    (rec : CrawlState → String → Option CrawlState) (s : CrawlState) (url : String)
    (r : CrawlState) (h : crawlStep env mp rec s url = some r) :
    ((url ∈ s.visited ∨ budgetHit mp s.visited.length = true) ∧ r = s) ∨
    (url ∉ s.visited ∧ budgetHit mp s.visited.length = false ∧
      (r = visitMark env s url ∨
        ∃ c, crawlLoop rec (linkMark (save_content env (visitMark env s url) url c) url)
              (extract_links env url) = some r)) := by
  unfold crawlStep at h
  by_cases h1 : url ∈ s.visited
  · rw [if_pos h1] at h
    exact Or.inl ⟨Or.inl h1, (Option.some.inj h).symm⟩
  · rw [if_neg h1] at h
    by_cases h2 : budgetHit mp s.visited.length = true
    · rw [if_pos h2] at h
      exact Or.inl ⟨Or.inr h2, (Option.some.inj h).symm⟩
    · rw [if_neg h2] at h
      refine Or.inr ⟨h1, Bool.not_eq_true _ ▸ eq_false_of_ne_true h2, ?_⟩
      by_cases h3 : pyTruthyStr (env.fetch_url url) = false
      · rw [if_pos h3] at h
        exact Or.inl (Option.some.inj h).symm
      · rw [if_neg h3] at h
        by_cases h4 : pyTruthyStr (env.extrac ((env.fetch_url url).getD "")) = false
        · rw [if_pos h4] at h
          exact Or.inl (Option.some.inj h).symm
        · rw [if_neg h4] at h
          exact Or.inr ⟨_, h⟩

/-! ## Generic preservation machinery

Most invariants of the crawl are relations `R` on states that are
reflexive, transitive, and re-established by the two state changes a
step can make.  The two lemmas below run the fuel/list induction once
for all of them. -/

theorem crawlLoop_pres {R : CrawlState → CrawlState → Prop}
    (hrefl : ∀ s, R s s)
    (htrans : ∀ a b c, R a b → R b c → R a c)
    (rec : CrawlState → String → Option CrawlState)
    (hrec : ∀ s u r, rec s u = some r → R s r) :
    ∀ (ls : List String) (s r : CrawlState), crawlLoop rec s ls = some r → R s r := by
  intro ls
  induction ls with
  | nil =>
      intro s r h
      rw [crawlLoop] at h
      exact (Option.some.inj h) ▸ hrefl s
  | cons l ls ih =>
      intro s r h
      rw [crawlLoop] at h
      cases hc : rec s l with
      | none => rw [hc] at h; cases h
      | some s' =>
          rw [hc] at h
          exact htrans _ _ _ (hrec _ _ _ hc) (ih s' r h)

theorem crawlF_pres (env : Env) (mp : Option Int) {R : CrawlState → CrawlState → Prop}
    (hrefl : ∀ s, R s s)
    (htrans : ∀ a b c, R a b → R b c → R a c)
    (hfail : ∀ s u, u ∉ s.visited → budgetHit mp s.visited.length = false →
      R s (visitMark env s u))
    (hsucc : ∀ s u c, u ∉ s.visited → budgetHit mp s.visited.length = false →
      R s (linkMark (save_content env (visitMark env s u) u c) u)) :
    ∀ (fuel : Nat) (s : CrawlState) (u : String) (r : CrawlState),
      crawlF env mp fuel s u = some r → R s r := by
  intro fuel
  induction fuel with
  | zero => intro s u r h; rw [crawlF_zero] at h; cases h
  | succ n ih =>
      intro s u r h
      rw [crawlF_succ] at h
      rcases crawlStep_split env mp _ s u r h with ⟨_, hr⟩ | ⟨h1, h2, hcase⟩
      · subst hr; exact hrefl _
      · rcases hcase with rfl | ⟨c, hloop⟩
        · exact hfail s u h1 h2
        · exact htrans _ _ _ (hsucc s u c h1 h2)
            (crawlLoop_pres hrefl htrans _ ih _ _ _ hloop)

theorem StateEvolve.rfl (s : CrawlState) : StateEvolve s s :=
  ⟨⟨[], (List.nil_append _).symm⟩, ⟨[], (List.append_nil _).symm⟩,
    ⟨[], (List.append_nil _).symm⟩⟩

theorem StateEvolve.trans (a b c : CrawlState) :
    StateEvolve a b → StateEvolve b c → StateEvolve a c := by
  rintro ⟨⟨v1, hv1⟩, ⟨t1, ht1⟩, ⟨o1, ho1⟩⟩ ⟨⟨v2, hv2⟩, ⟨t2, ht2⟩, ⟨o2, ho2⟩⟩
  refine ⟨⟨v2 ++ v1, ?_⟩, ⟨t1 ++ t2, ?_⟩, ⟨o1 ++ o2, ?_⟩⟩
  · rw [hv2, hv1, List.append_assoc]
  · rw [ht2, ht1, List.append_assoc]
  · rw [ho2, ho1, List.append_assoc]

theorem crawlF_evolve (env : Env) (mp : Option Int) :
    ∀ (fuel : Nat) (s : CrawlState) (u : String) (r : CrawlState),
      crawlF env mp fuel s u = some r → StateEvolve s r := by
  refine crawlF_pres env mp StateEvolve.rfl StateEvolve.trans ?_ ?_
  · intro s u _ _
    exact ⟨⟨[u], rfl⟩, ⟨[Ev.sleep env.delay, Ev.fetch u], rfl⟩,
      ⟨[], (List.append_nil _).symm⟩⟩
  · intro s u c _ _
    rcases save_content_out env (visitMark env s u) u c with ⟨o, ho⟩
    refine ⟨⟨[u], ?_⟩, ⟨[Ev.sleep env.delay, Ev.fetch u] ++ [Ev.get u], ?_⟩, ⟨o, ?_⟩⟩
    · rw [linkMark_visited, save_content_visited, visitMark_visited]; rfl
    · rw [linkMark_trace, save_content_trace, visitMark_trace, List.append_assoc]
    · rw [linkMark_out, ho, visitMark_out]

theorem budgetHit_none (n : Nat) : budgetHit none n = false := rfl

theorem budgetHit_some (k : Int) (n : Nat) :
    budgetHit (some k) n = true ↔ k ≤ (n : Int) := by
  simp [budgetHit, ge_iff_le]

theorem budgetHit_some_false (k : Int) (n : Nat) :
    budgetHit (some k) n = false ↔ (n : Int) < k := by
  simp [budgetHit, ge_iff_le]

theorem crawlF_visited_mono (env : Env) (mp : Option Int) (fuel : Nat)
    (s : CrawlState) (u : String) (r : CrawlState)
    (h : crawlF env mp fuel s u = some r) :
    ∀ v ∈ s.visited, v ∈ r.visited := by
  rcases crawlF_evolve env mp fuel s u r h with ⟨⟨a, ha⟩, _, _⟩
  intro v hv
  rw [ha]
  exact List.mem_append_right a hv

theorem crawlF_visited_len (env : Env) (mp : Option Int) (fuel : Nat)
    (s : CrawlState) (u : String) (r : CrawlState)
    (h : crawlF env mp fuel s u = some r) :
    s.visited.length ≤ r.visited.length := by
  rcases crawlF_evolve env mp fuel s u r h with ⟨⟨a, ha⟩, _, _⟩
  rw [ha, List.length_append]
  omega

theorem crawlF_trace_mono (env : Env) (mp : Option Int) (fuel : Nat)
    (s : CrawlState) (u : String) (r : CrawlState)
    (h : crawlF env mp fuel s u = some r) :
    ∀ e ∈ s.trace, e ∈ r.trace := by
  rcases crawlF_evolve env mp fuel s u r h with ⟨_, ⟨b, hb⟩, _⟩
  intro e he
  rw [hb]
  exact List.mem_append_left b he

/-- After a step on `u` that returned, either `u` is visited in the
result, or the page budget was already reached when the step began. -/
theorem crawlF_outcome (env : Env) (mp : Option Int) (fuel : Nat)
    (s : CrawlState) (u : String) (r : CrawlState)
    (h : crawlF env mp fuel s u = some r) :
    u ∈ r.visited ∨ ∃ k, mp = some k ∧ k ≤ (s.visited.length : Int) := by
  cases fuel with
  | zero => rw [crawlF_zero] at h; cases h
  | succ n =>
      rw [crawlF_succ] at h
      rcases crawlStep_split env mp _ s u r h with ⟨hg, hr⟩ | ⟨h1, h2, hcase⟩
      · subst hr
        rcases hg with hg | hg
        · exact Or.inl hg
        · cases hmp : mp with
          | none => rw [hmp, budgetHit_none] at hg; cases hg
          | some k =>
              rw [hmp] at hg
              exact Or.inr ⟨k, rfl, (budgetHit_some k _).mp hg⟩
      · left
        rcases hcase with hr | ⟨c, hloop⟩
        · rw [hr, visitMark_visited]; exact List.mem_cons_self u _
        · have hmem : u ∈ (linkMark (save_content env (visitMark env s u) u c) u).visited := by
            rw [linkMark_visited, save_content_visited, visitMark_visited]
            exact List.mem_cons_self u _
          rcases crawlLoop_pres StateEvolve.rfl StateEvolve.trans _
              (crawlF_evolve env mp n) _ _ _ hloop with ⟨⟨a, ha⟩, _, _⟩
          rw [ha]
          exact List.mem_append_right a hmem

theorem fetchTargets_append (a b : List Ev) :
    fetchTargets (a ++ b) = fetchTargets a ++ fetchTargets b :=
  List.filterMap_append a b _

theorem GoodFetch_extend (env : Env) (s : CrawlState) (u : String)
    (h1 : u ∉ s.visited) (hgf : GoodFetch s) (t : List Ev)
    (ht : fetchTargets t = [u]) :
    ((fetchTargets (s.trace ++ t)).Nodup ∧
      ∀ v ∈ fetchTargets (s.trace ++ t), v ∈ u :: s.visited) := by
  rcases hgf with ⟨hnd, hsub⟩
  rw [fetchTargets_append, ht]
  constructor
  · rw [List.nodup_append]
    refine ⟨hnd, List.nodup_singleton u, ?_⟩
    intro v hv hv'
    rw [List.mem_singleton] at hv'
    subst hv'
    exact h1 (hsub v hv)
  · intro v hv
    rcases List.mem_append.mp hv with hv | hv
    · exact List.mem_cons_of_mem u (hsub v hv)
    · rw [List.mem_singleton] at hv
      subst hv
      exact List.mem_cons_self v _

theorem crawlF_goodFetch (env : Env) (mp : Option Int) :
    ∀ (fuel : Nat) (s : CrawlState) (u : String) (r : CrawlState),
      crawlF env mp fuel s u = some r → GoodFetch s → GoodFetch r := by
  refine crawlF_pres env mp (R := fun s r => GoodFetch s → GoodFetch r)
    (fun s h => h) (fun a b c hab hbc h => hbc (hab h)) ?_ ?_
  · intro s u h1 _ hgf
    exact GoodFetch_extend env s u h1 hgf [Ev.sleep env.delay, Ev.fetch u] rfl
  · intro s u c h1 _ hgf
    have htr : (linkMark (save_content env (visitMark env s u) u c) u).trace
        = s.trace ++ [Ev.sleep env.delay, Ev.fetch u, Ev.get u] := by
      rw [linkMark_trace, save_content_trace, visitMark_trace, List.append_assoc]
      rfl
    have hvs : (linkMark (save_content env (visitMark env s u) u c) u).visited
        = u :: s.visited := by
      rw [linkMark_visited, save_content_visited, visitMark_visited]
    have h := GoodFetch_extend env s u h1 hgf [Ev.sleep env.delay, Ev.fetch u, Ev.get u] rfl
    unfold GoodFetch
    rw [htr, hvs]
    exact h

theorem crawlF_fetchLe (env : Env) (mp : Option Int) :
    ∀ (fuel : Nat) (s : CrawlState) (u : String) (r : CrawlState),
      crawlF env mp fuel s u = some r → FetchLe s r := by
  refine crawlF_pres env mp (R := FetchLe) (fun s => le_refl _)
    (fun a b c hab hbc => by unfold FetchLe at *; omega) ?_ ?_
  · intro s u _ _
    unfold FetchLe
    rw [visitMark_trace, visitMark_visited, fetchTargets_append]
    simp [fetchTargets, List.filterMap]
    omega
  · intro s u c _ _
    unfold FetchLe
    have htr : (linkMark (save_content env (visitMark env s u) u c) u).trace
        = s.trace ++ [Ev.sleep env.delay, Ev.fetch u, Ev.get u] := by
      rw [linkMark_trace, save_content_trace, visitMark_trace, List.append_assoc]
      rfl
    have hvs : (linkMark (save_content env (visitMark env s u) u c) u).visited
        = u :: s.visited := by
      rw [linkMark_visited, save_content_visited, visitMark_visited]
    rw [htr, hvs, fetchTargets_append]
    simp [fetchTargets, List.filterMap]
    omega

/-! ## Budget invariant -/

theorem crawlF_budget_inv (env : Env) (k : Int) :
    ∀ (fuel : Nat) (s : CrawlState) (u : String) (r : CrawlState),
      crawlF env (some k) fuel s u = some r →
      (s.visited.length : Int) ≤ k → (r.visited.length : Int) ≤ k := by
  refine crawlF_pres env (some k)
    (R := fun s r => (s.visited.length : Int) ≤ k → (r.visited.length : Int) ≤ k)
    (fun s h => h) (fun a b c hab hbc h => hbc (hab h)) ?_ ?_
  · intro s u _ h2 _
    have := (budgetHit_some_false k s.visited.length).mp h2
    rw [visitMark_visited]
    simp only [List.length_cons]
    push_cast
    omega
  · intro s u c _ h2 _
    have := (budgetHit_some_false k s.visited.length).mp h2
    rw [linkMark_visited, save_content_visited, visitMark_visited]
    simp only [List.length_cons]
    push_cast
    omega

theorem fetchesDelayed_append (d : Rat) :
    ∀ (l₁ : List Ev) (p : Option Ev) (l₂ : List Ev),
      fetchesDelayed d p (l₁ ++ l₂) =
        (fetchesDelayed d p l₁ && fetchesDelayed d (lastEv p l₁) l₂) := by
  intro l₁
  induction l₁ with
  | nil => intro p l₂; rfl
  | cons e rest ih =>
      intro p l₂
      rw [List.cons_append]
      show ((match e with
              | Ev.fetch _ => decide (p = some (Ev.sleep d))
              | _ => true) && fetchesDelayed d (some e) (rest ++ l₂)) = _
      rw [ih (some e) l₂]
      show _ = ((match e with
              | Ev.fetch _ => decide (p = some (Ev.sleep d))
              | _ => true) && fetchesDelayed d (some e) rest
                && fetchesDelayed d (lastEv (some e) rest) l₂)
      rw [Bool.and_assoc]

theorem delayed_chunk_pair (d : Rat) (u : String) (q : Option Ev) :
    fetchesDelayed d q [Ev.sleep d, Ev.fetch u] = true := by
  simp [fetchesDelayed]

theorem delayed_chunk_triple (d : Rat) (u : String) (q : Option Ev) :
    fetchesDelayed d q [Ev.sleep d, Ev.fetch u, Ev.get u] = true := by
  simp [fetchesDelayed]

theorem crawlF_delayed (env : Env) (mp : Option Int) :
    ∀ (fuel : Nat) (s : CrawlState) (u : String) (r : CrawlState),
      crawlF env mp fuel s u = some r →
      Delayed env.delay s → Delayed env.delay r := by
  refine crawlF_pres env mp
    (R := fun s r => Delayed env.delay s → Delayed env.delay r)
    (fun s h => h) (fun a b c hab hbc h => hbc (hab h)) ?_ ?_
  · intro s u _ _ hd p
    show fetchesDelayed env.delay p (visitMark env s u).trace = true
    rw [visitMark_trace, fetchesDelayed_append, hd p,
      delayed_chunk_pair env.delay u (lastEv p s.trace)]
    rfl
  · intro s u c _ _ hd p
    have htr : (linkMark (save_content env (visitMark env s u) u c) u).trace
        = s.trace ++ [Ev.sleep env.delay, Ev.fetch u, Ev.get u] := by
      rw [linkMark_trace, save_content_trace, visitMark_trace, List.append_assoc]
      rfl
    show fetchesDelayed env.delay p
      (linkMark (save_content env (visitMark env s u) u c) u).trace = true
    rw [htr, fetchesDelayed_append, hd p,
      delayed_chunk_triple env.delay u (lastEv p s.trace)]
    rfl

/-! ## StateEvolve consequences -/

theorem StateEvolve.visited_mem {s r : CrawlState} (h : StateEvolve s r) :
    ∀ v ∈ s.visited, v ∈ r.visited := by
  rcases h with ⟨⟨a, ha⟩, _, _⟩
  intro v hv
  rw [ha]
  exact List.mem_append_right a hv

theorem StateEvolve.visited_len {s r : CrawlState} (h : StateEvolve s r) :
    s.visited.length ≤ r.visited.length := by
  rcases h with ⟨⟨a, ha⟩, _, _⟩
  rw [ha, List.length_append]
  omega

theorem crawlLoop_evolve (env : Env) (mp : Option Int) (n : Nat) :
    ∀ (ls : List String) (s r : CrawlState),
      crawlLoop (crawlF env mp n) s ls = some r → StateEvolve s r :=
  fun ls s r h =>
    crawlLoop_pres StateEvolve.rfl StateEvolve.trans _ (crawlF_evolve env mp n) ls s r h

theorem budgetReached_mono (mp : Option Int) (s r : CrawlState) (h : StateEvolve s r) :
    BudgetReached mp s → BudgetReached mp r := by
  rintro ⟨k, hk, hlen⟩
  refine ⟨k, hk, le_trans hlen ?_⟩
  exact_mod_cast h.visited_len

theorem newCount_mono (U : List String) (a vis : List String) :
    newCount U (a ++ vis) ≤ newCount U vis := by
  unfold newCount
  apply Finset.card_le_card
  apply Finset.sdiff_subset_sdiff (Finset.Subset.refl _)
  intro x hx
  rw [List.mem_toFinset] at hx ⊢
  exact List.mem_append_right a hx

theorem newCount_drop (U : List String) (u : String) (vis : List String)
    (hU : u ∈ U) (hnv : u ∉ vis) :
    newCount U (u :: vis) + 1 ≤ newCount U vis := by
  unfold newCount
  rw [List.toFinset_cons, Finset.sdiff_insert]
  have hmem : u ∈ U.toFinset \ vis.toFinset := by
    rw [Finset.mem_sdiff, List.mem_toFinset, List.mem_toFinset]
    exact ⟨hU, hnv⟩
  rw [Finset.card_erase_of_mem hmem]
  have hpos : 0 < (U.toFinset \ vis.toFinset).card := Finset.card_pos.mpr ⟨u, hmem⟩
  omega

/-- On a universe `U` closed under in-scope link discovery, fuel one more
than the number of not-yet-visited members of `U` suffices: the crawl
returns (the Python recursion terminates). -/
theorem crawlF_total (env : Env) (mp : Option Int) (U : List String)
    (hcl : ∀ v ∈ U, ∀ w ∈ extract_links env v, w ∈ U) :
    ∀ (n : Nat) (s : CrawlState) (u : String), u ∈ U → newCount U s.visited ≤ n →
      (crawlF env mp (n + 1) s u).isSome = true := by
  intro n
  induction n with
  | zero =>
      intro s u hU hc
      have hv : u ∈ s.visited := by
        by_contra hnv
        have hmem : u ∈ U.toFinset \ s.visited.toFinset := by
          rw [Finset.mem_sdiff, List.mem_toFinset, List.mem_toFinset]
          exact ⟨hU, hnv⟩
        have : 0 < newCount U s.visited := Finset.card_pos.mpr ⟨u, hmem⟩
        omega
      rw [crawlF_succ]
      unfold crawlStep
      rw [if_pos hv]
      rfl
  | succ n ih =>
      intro s u hU hc
      rw [crawlF_succ]
      unfold crawlStep
      by_cases h1 : u ∈ s.visited
      · rw [if_pos h1]; rfl
      · rw [if_neg h1]
        by_cases h2 : budgetHit mp s.visited.length = true
        · rw [if_pos h2]; rfl
        · rw [if_neg h2]
          by_cases h3 : pyTruthyStr (env.fetch_url u) = false
          · rw [if_pos h3]; rfl
          · rw [if_neg h3]
            by_cases h4 : pyTruthyStr (env.extrac ((env.fetch_url u).getD "")) = false
            · rw [if_pos h4]; rfl
            · rw [if_neg h4]
              have hloop : ∀ (ls : List String), (∀ w ∈ ls, w ∈ U) →
                  ∀ s', newCount U s'.visited ≤ n →
                    (crawlLoop (crawlF env mp (n + 1)) s' ls).isSome = true := by
                intro ls
                induction ls with
                | nil => intro _ s' _; rw [crawlLoop]; rfl
                | cons w ws ihl =>
                    intro hws s' hc'
                    rw [crawlLoop]
                    have hw := ih s' w (hws w (List.mem_cons_self _ _)) hc'
                    cases hcw : crawlF env mp (n + 1) s' w with
                    | none => rw [hcw] at hw; cases hw
                    | some s'' =>
                        apply ihl (fun x hx => hws x (List.mem_cons_of_mem _ hx)) s''
                        rcases crawlF_evolve env mp (n + 1) s' w s'' hcw with ⟨⟨a, ha⟩, _, _⟩
                        calc newCount U s''.visited
                            = newCount U (a ++ s'.visited) := by rw [ha]
                          _ ≤ newCount U s'.visited := newCount_mono U a s'.visited
                          _ ≤ n := hc'
              apply hloop (extract_links env u) (hcl u hU)
              have hvs : (linkMark (save_content env (visitMark env s u) u
                  ((env.extrac ((env.fetch_url u).getD "")).getD "")) u).visited
                  = u :: s.visited := by
                rw [linkMark_visited, save_content_visited, visitMark_visited]
              rw [hvs]
              have := newCount_drop U u s.visited hU h1
              omega

/-! ## Discovered links end up visited (unless the budget intervenes) -/

/-- Relative link-closure: every page whose links were extracted during
the run (`Ev.get v` new in `r.trace`) has all its in-scope links visited
in `r`, unless the page budget was reached. -/
theorem crawlF_closed (env : Env) (mp : Option Int) :
    ∀ (fuel : Nat) (s : CrawlState) (u : String) (r : CrawlState),
      crawlF env mp fuel s u = some r →
      ∀ v, Ev.get v ∈ r.trace →
        Ev.get v ∈ s.trace ∨ (∀ w ∈ extract_links env v, w ∈ r.visited) ∨
          BudgetReached mp r := by
  intro fuel
  induction fuel with
  | zero => intro s u r h; rw [crawlF_zero] at h; cases h
  | succ n ih =>
      have hloop : ∀ (ls : List String) (s' r' : CrawlState),
          crawlLoop (crawlF env mp n) s' ls = some r' →
          ((∀ w ∈ ls, w ∈ r'.visited) ∨ BudgetReached mp r') ∧
          (∀ v, Ev.get v ∈ r'.trace → Ev.get v ∈ s'.trace ∨
            (∀ w ∈ extract_links env v, w ∈ r'.visited) ∨ BudgetReached mp r') := by
        intro ls
        induction ls with
        | nil =>
            intro s' r' h
            rw [crawlLoop] at h
            cases Option.some.inj h
            exact ⟨Or.inl (fun w hw => absurd hw (List.not_mem_nil w)),
              fun v hv => Or.inl hv⟩
        | cons w ws ihl =>
            intro s' r' h
            rw [crawlLoop] at h
            cases hcw : crawlF env mp n s' w with
            | none => rw [hcw] at h; cases h
            | some s'' =>
                rw [hcw] at h
                obtain ⟨hmem, hclosed⟩ := ihl s'' r' h
                have hev1 : StateEvolve s' s'' := crawlF_evolve env mp n s' w s'' hcw
                have hev2 : StateEvolve s'' r' := crawlLoop_evolve env mp n ws s'' r' h
                constructor
                · rcases crawlF_outcome env mp n s' w s'' hcw with hw | ⟨k, hk1, hk2⟩
                  · rcases hmem with hmem | hbud
                    · refine Or.inl (fun x hx => ?_)
                      rcases List.mem_cons.mp hx with hx | hx
                      · subst hx
                        exact hev2.visited_mem x hw
                      · exact hmem x hx
                    · exact Or.inr hbud
                  · exact Or.inr (budgetReached_mono mp s'' r' hev2
                      (budgetReached_mono mp s' s'' hev1 ⟨k, hk1, hk2⟩))
                · intro v hv
                  rcases hclosed v hv with hin | hcl' | hbud
                  · rcases ih s' w s'' hcw v hin with hin' | hcl' | hbud'
                    · exact Or.inl hin'
                    · exact Or.inr (Or.inl
                        (fun x hx => hev2.visited_mem x (hcl' x hx)))
                    · exact Or.inr (Or.inr (budgetReached_mono mp s'' r' hev2 hbud'))
                  · exact Or.inr (Or.inl hcl')
                  · exact Or.inr (Or.inr hbud)
      intro s u r h
      rw [crawlF_succ] at h
      rcases crawlStep_split env mp _ s u r h with ⟨_, hr⟩ | ⟨h1, h2, hcase⟩
      · subst hr
        exact fun v hv => Or.inl hv
      · rcases hcase with hr | ⟨c, hloopEq⟩
        · subst hr
          intro v hv
          rw [visitMark_trace] at hv
          left
          rcases List.mem_append.mp hv with hv | hv
          · exact hv
          · simp at hv
        · obtain ⟨hls, hgets⟩ := hloop (extract_links env u) _ r hloopEq
          intro v hv
          have htr : (linkMark (save_content env (visitMark env s u) u c) u).trace
              = s.trace ++ [Ev.sleep env.delay, Ev.fetch u, Ev.get u] := by
            rw [linkMark_trace, save_content_trace, visitMark_trace, List.append_assoc]
            rfl
          rcases hgets v hv with hin | hcl' | hbud
          · rw [htr] at hin
            rcases List.mem_append.mp hin with hin | hin
            · exact Or.inl hin
            · have hvu : v = u := by simp at hin; exact hin
              subst hvu
              rcases hls with hmem | hbud
              · exact Or.inr (Or.inl hmem)
              · exact Or.inr (Or.inr hbud)
          · exact Or.inr (Or.inl hcl')
          · exact Or.inr (Or.inr hbud)

/-! ## The claims -/

/-- C1: At-most-once fetch.  `crawl` returns immediately (state
untouched) for a URL already in the visited set, and in any run from the
initial state the list of URLs passed to the page fetch has no
duplicates — each fetched URL having been added to the visited set
before its fetch (the fetched URLs are a subset of the visited set). -/
theorem at_most_once_fetch :
    (∀ (env : Env) (mp : Option Int) (fuel : Nat) (s : CrawlState) (u : String),
      u ∈ s.visited → crawlF env mp (fuel + 1) s u = some s) ∧
    (∀ (env : Env) (mp : Option Int) (fuel : Nat) (seed : String) (r : CrawlState),
      crawlF env mp fuel initState seed = some r →
      (fetchTargets r.trace).Nodup ∧ ∀ v ∈ fetchTargets r.trace, v ∈ r.visited) := by
  constructor
  · intro env mp fuel s u hv
    rw [crawlF_succ]
    unfold crawlStep
    rw [if_pos hv]
  · intro env mp fuel seed r h
    exact crawlF_goodFetch env mp fuel initState seed r h
      ⟨List.nodup_nil, fun v hv => absurd hv (List.not_mem_nil v)⟩

theorem at_most_once_fetch_witness :
    crawlF exEnv none 1 { visited := ["https://d/x/"], out := [], trace := [] }
        "https://d/x/"
      = some { visited := ["https://d/x/"], out := [], trace := [] } ∧
    ((fetchTargets exRunAll.trace).Nodup ∧
      ∀ v ∈ fetchTargets exRunAll.trace, v ∈ exRunAll.visited) :=
  ⟨at_most_once_fetch.1 exEnv none 0 _ "https://d/x/" (by decide),
    at_most_once_fetch.2 exEnv none 4 "https://d/x/" exRunAll (by decide)⟩

/-- C2: Budget bound.  With `max_pages = N ≥ 0`, any run from the
initial state keeps the visited set's size, and the number of fetch
attempts, at most `N`; with `max_pages = None` the budget never blocks:
every URL the crawl is entered on ends up visited. -/
theorem budget_bound :
    (∀ (env : Env) (N : Int) (fuel : Nat) (seed : String) (r : CrawlState),
      0 ≤ N → crawlF env (some N) fuel initState seed = some r →
      (r.visited.length : Int) ≤ N ∧ ((fetchTargets r.trace).length : Int) ≤ N) ∧
    (∀ (env : Env) (fuel : Nat) (s : CrawlState) (u : String) (r : CrawlState),
      crawlF env none fuel s u = some r → u ∈ r.visited) := by
  constructor
  · intro env N fuel seed r hN h
    have hb := crawlF_budget_inv env N fuel initState seed r h (by simpa using hN)
    refine ⟨hb, ?_⟩
    have hf := crawlF_fetchLe env (some N) fuel initState seed r h
    unfold FetchLe at hf
    have h0 : (fetchTargets initState.trace).length = 0 := rfl
    have h1 : initState.visited.length = 0 := rfl
    rw [h0, h1] at hf
    have : (fetchTargets r.trace).length ≤ r.visited.length := by omega
    calc ((fetchTargets r.trace).length : Int)
        ≤ (r.visited.length : Int) := by exact_mod_cast this
      _ ≤ N := hb
  · intro env fuel s u r h
    rcases crawlF_outcome env none fuel s u r h with h | ⟨k, hk, _⟩
    · exact h
    · cases hk

theorem budget_bound_witness :
    ((exRunOne.visited.length : Int) ≤ 1 ∧
      ((fetchTargets exRunOne.trace).length : Int) ≤ 1) ∧
    "bad" ∈ exRunBad.visited :=
  ⟨budget_bound.1 exEnv 1 5 "https://d/x/" exRunOne (by decide) (by decide),
    budget_bound.2 exEnv 2 initState "bad" exRunBad (by decide)⟩

/-- C7: Politeness delay.  In any run from the initial state, every page
fetch event in the trace is immediately preceded by a sleep of the
resolved minimum delay (`self.crawl_delay`), so no fetch happens without
the delay elapsing right before it. -/
theorem politeness_delay (env : Env) (mp : Option Int) (fuel : Nat) (seed : String)
    (r : CrawlState) (h : crawlF env mp fuel initState seed = some r) :
    fetchesDelayed env.delay none r.trace = true :=
  crawlF_delayed env mp fuel initState seed r h (fun _ => rfl) none

theorem politeness_delay_witness :
    fetchesDelayed exEnv.delay none exRunAll.trace = true :=
  politeness_delay exEnv none 4 "https://d/x/" exRunAll (by decide)

/-- C8: Page-local failure skip.  When the fetch result or the extracted
text is falsy, the step on `u` returns with `u` added to the visited set
and the sleep and fetch recorded, but with no output record appended and
no link discovery (no `requests.get`, no recursion into children): the
state is otherwise unchanged and control returns to the caller's loop. -/
theorem page_failure_skip (env : Env) (mp : Option Int) (fuel : Nat) (s : CrawlState)
    (u : String) (h1 : u ∉ s.visited) (h2 : budgetHit mp s.visited.length = false)
    (h3 : pyTruthyStr (env.fetch_url u) = false ∨
      pyTruthyStr (env.extrac ((env.fetch_url u).getD "")) = false) :
    crawlF env mp (fuel + 1) s u =
      some { visited := u :: s.visited, out := s.out,
             trace := s.trace ++ [Ev.sleep env.delay, Ev.fetch u] } := by
  rw [crawlF_succ]
  unfold crawlStep
  rw [if_neg h1, if_neg (by rw [h2]; exact Bool.false_ne_true)]
  rcases h3 with h3 | h3
  · rw [if_pos h3]
    rfl
  · by_cases hf : pyTruthyStr (env.fetch_url u) = false
    · rw [if_pos hf]
      rfl
    · rw [if_neg hf, if_pos h3]
      rfl

theorem page_failure_skip_witness :
    crawlF exEnv none 1 initState "bad" =
      some { visited := "bad" :: initState.visited, out := initState.out,
             trace := initState.trace ++ [Ev.sleep exEnv.delay, Ev.fetch "bad"] } :=
  page_failure_skip exEnv none 0 initState "bad" (by decide) (by decide)
    (Or.inl (by decide))

/-- C9: The seed bypasses all gating.  `crawl` never applies
`is_valid_url` to its own argument: even a URL failing the scope/robots
predicate is slept on, fetched and marked visited when passed directly
to `crawl`; only links discovered by `extract_links` are filtered
through `is_valid_url`. -/
theorem seed_bypasses_gating :
    (∀ (env : Env) (url : String), env.links_ok url = true →
      extract_links env url = (env.page_links url).filter (fun l => is_valid_url env l)) ∧
    (∀ (env : Env) (mp : Option Int) (fuel : Nat) (s : CrawlState) (u : String)
        (r : CrawlState),
      is_valid_url env u = false → u ∉ s.visited → budgetHit mp s.visited.length = false →
      crawlF env mp (fuel + 1) s u = some r →
      Ev.fetch u ∈ r.trace ∧ u ∈ r.visited) := by
  constructor
  · intro env url h
    unfold extract_links
    rw [if_pos h]
  · intro env mp fuel s u r _ h1 h2 h
    rw [crawlF_succ] at h
    rcases crawlStep_split env mp _ s u r h with ⟨hg, _⟩ | ⟨_, _, hcase⟩
    · rcases hg with hg | hg
      · exact absurd hg h1
      · rw [h2] at hg; cases hg
    · have hfet : Ev.fetch u ∈ (visitMark env s u).trace := by
        rw [visitMark_trace]
        exact List.mem_append_right _ (by simp)
      have hvis : u ∈ (visitMark env s u).visited := by
        rw [visitMark_visited]
        exact List.mem_cons_self u _
      rcases hcase with hr | ⟨c, hloopEq⟩
      · subst hr
        exact ⟨hfet, hvis⟩
      · have hev := crawlLoop_evolve env mp fuel _ _ r hloopEq
        have hfet4 : Ev.fetch u ∈
            (linkMark (save_content env (visitMark env s u) u c) u).trace := by
          rw [linkMark_trace, save_content_trace]
          exact List.mem_append_left _ hfet
        have hvis4 : u ∈
            (linkMark (save_content env (visitMark env s u) u c) u).visited := by
          rw [linkMark_visited, save_content_visited]
          exact hvis
        rcases hev with ⟨⟨a, ha⟩, ⟨b, hb⟩, _⟩
        constructor
        · rw [hb]; exact List.mem_append_left b hfet4
        · rw [ha]; exact List.mem_append_right a hvis4

theorem seed_bypasses_gating_witness :
    (extract_links exEnv "https://d/x/" =
      (exEnv.page_links "https://d/x/").filter (fun l => is_valid_url exEnv l)) ∧
    (Ev.fetch "bad" ∈ exRunBad.trace ∧ "bad" ∈ exRunBad.visited) :=
  ⟨seed_bypasses_gating.1 exEnv "https://d/x/" (by decide),
    seed_bypasses_gating.2 exEnv none 0 initState "bad" exRunBad (by decide)
      (by decide) (by decide) (by decide)⟩

/-- C10: A non-positive page budget is a hard stop.  With
`max_pages = k ≤ 0` the crawl returns at once from the initial state:
nothing visited, no sleep, no fetch, no output. -/
theorem nonpositive_budget_noop (env : Env) (k : Int) (fuel : Nat) (u : String)
    (hk : k ≤ 0) :
    crawlF env (some k) (fuel + 1) initState u = some initState := by
  rw [crawlF_succ]
  unfold crawlStep
  rw [if_neg (show u ∉ initState.visited from List.not_mem_nil u)]
  rw [if_pos ((budgetHit_some k initState.visited.length).mpr (by simpa using hk))]

theorem nonpositive_budget_noop_witness :
    crawlF exEnv (some 0) 4 initState "https://d/x/" = some initState :=
  nonpositive_budget_noop exEnv 0 3 "https://d/x/" (by decide)

/-- C5: No error is crawl-fatal and the crawl terminates.  All
collaborator failures are values handled by the model's branches, so a
step always returns; on any finite URL universe closed under in-scope
link discovery, fuel `|U| + 1` suffices for the whole crawl to return a
final state, and that state is complete: either every page whose links
were extracted has all its in-scope links visited (exhaustion), or the
page budget has been reached.  Moreover each step either returns with
the state unchanged or strictly grows the visited set. -/
theorem crawl_terminates :
    (∀ (env : Env) (mp : Option Int) (U : List String) (seed : String),
      seed ∈ U → (∀ v ∈ U, ∀ w ∈ extract_links env v, w ∈ U) →
      ∃ r, crawlF env mp (U.length + 1) initState seed = some r ∧
        ((∀ v, Ev.get v ∈ r.trace → ∀ w ∈ extract_links env v, w ∈ r.visited) ∨
          BudgetReached mp r)) ∧
    (∀ (env : Env) (mp : Option Int) (fuel : Nat) (s : CrawlState) (u : String)
        (r : CrawlState),
      crawlF env mp fuel s u = some r →
      r = s ∨ (u ∈ r.visited ∧ s.visited.length < r.visited.length)) := by
  constructor
  · intro env mp U seed hseed hcl
    have hcount : newCount U initState.visited ≤ U.length := by
      unfold newCount
      have h0 : (initState.visited.toFinset : Finset String) = ∅ := rfl
      rw [h0, Finset.sdiff_empty]
      exact U.toFinset_card_le
    have hs := crawlF_total env mp U hcl U.length initState seed hseed hcount
    rcases Option.isSome_iff_exists.mp hs with ⟨r, hr⟩
    rcases Classical.em (BudgetReached mp r) with hb | hnb
    · exact ⟨r, hr, Or.inr hb⟩
    · refine ⟨r, hr, Or.inl ?_⟩
      intro v hv w hw
      rcases crawlF_closed env mp _ initState seed r hr v hv with hin | hcl' | hbud
      · exact absurd hin (List.not_mem_nil _)
      · exact hcl' w hw
      · exact absurd hbud hnb
  · intro env mp fuel s u r h
    cases fuel with
    | zero => rw [crawlF_zero] at h; cases h
    | succ n =>
        rw [crawlF_succ] at h
        rcases crawlStep_split env mp _ s u r h with ⟨_, hr⟩ | ⟨h1, _, hcase⟩
        · exact Or.inl hr
        · right
          rcases hcase with hr | ⟨c, hloopEq⟩
          · subst hr
            rw [visitMark_visited]
            exact ⟨List.mem_cons_self u _, by simp⟩
          · have hev := crawlLoop_evolve env mp n _ _ r hloopEq
            have hvis4 : u ∈
                (linkMark (save_content env (visitMark env s u) u c) u).visited := by
              rw [linkMark_visited, save_content_visited, visitMark_visited]
              exact List.mem_cons_self u _
            have hlen4 : s.visited.length <
                (linkMark (save_content env (visitMark env s u) u c) u).visited.length := by
              rw [linkMark_visited, save_content_visited, visitMark_visited]
              simp
            exact ⟨hev.visited_mem u hvis4, lt_of_lt_of_le hlen4 hev.visited_len⟩

theorem crawl_terminates_witness :
    (∃ r, crawlF exEnv none
        (["https://d/x/", "https://d/x/a.html", "https://d/x/b.html"].length + 1)
        initState "https://d/x/" = some r ∧
      ((∀ v, Ev.get v ∈ r.trace → ∀ w ∈ extract_links exEnv v, w ∈ r.visited) ∨
        BudgetReached none r)) ∧
    (exRunBad = initState ∨
      ("bad" ∈ exRunBad.visited ∧
        initState.visited.length < exRunBad.visited.length)) :=
  ⟨crawl_terminates.1 exEnv none
      ["https://d/x/", "https://d/x/a.html", "https://d/x/b.html"] "https://d/x/"
      (by decide) (by decide),
    crawl_terminates.2 exEnv none 2 initState "bad" exRunBad (by decide)⟩

/-- C4: Scope predicate.  `is_valid_url url` holds exactly when the
URL's netloc equals the base URL's netloc, its path ends with `.html` or
with `/`, the path contains neither `/_sources/` nor `/_static/`, and
the robots rules allow fetching it for the configured user-agent. -/
theorem scope_predicate (env : Env) (url : String) :
    is_valid_url env url = true ↔
      ((env.urlparse url).netloc = (env.urlparse env.base_url).netloc ∧
        (endsWithStr (env.urlparse url).path ".html" = true ∨
          endsWithStr (env.urlparse url).path "/" = true) ∧
        containsSub "/_sources/" (env.urlparse url).path = false ∧
        containsSub "/_static/" (env.urlparse url).path = false ∧
        env.rp.can_fetch env.user_agent url = true) := by
  simp only [is_valid_url]
  split_ifs with h1 h2 h3 <;> simp_all
  · intro _ hs ht
    rcases h3 with h3 | h3
    · rw [h3] at hs
      exact Bool.noConfusion hs
    · rw [h3] at ht
      exact Bool.noConfusion ht
  · intro _
    by_cases he : endsWithStr (env.urlparse url).path ".html" = true
    · exact Or.inl he
    · exact Or.inr (h2 (eq_false_of_ne_true he))

/-- C6 (counterexample): with `Crawl-delay: 0` declared together with
`Request-rate: 1/5`, the resolved delay is `5.0`, not the declared
crawl-delay `0`: Python's `or` treats the declared `0` as absent. -/
theorem delay_resolution_cex :
    RFP.delay_q rpDelayZero = some 0 ∧ init_delay rpDelayZero = 5 ∧
      init_delay rpDelayZero ≠ 0 :=
  ⟨rfl, by decide, by decide⟩

/-- C6 (amended): the resolved delay is the declared crawl-delay when
that is nonzero; otherwise the declared request-rate's `seconds` when
that is present and nonzero; otherwise exactly `1.0`.  A declared zero
(for either directive) is falsy in Python and falls through to the next
stage. -/
theorem delay_resolution (rp : RFP) :
    (∀ n : Nat, rp.delay_q = some n → n ≠ 0 → init_delay rp = (n : Rat)) ∧
    (∀ rr : RequestRate, (rp.delay_q = none ∨ rp.delay_q = some 0) →
      rp.rate_q = some rr → rr.seconds ≠ 0 → init_delay rp = (rr.seconds : Rat)) ∧
    ((rp.delay_q = none ∨ rp.delay_q = some 0) →
      (rp.rate_q = none ∨ ∃ rr, rp.rate_q = some rr ∧ rr.seconds = 0) →
      init_delay rp = 1) := by
  refine ⟨?_, ?_, ?_⟩
  · intro n hd hn
    unfold init_delay get_crawl_delay
    rw [hd]
    simp only [hn, if_true, ne_eq, ite_not]
    have hcast : ((n : Rat) = 0) = False := by
      simp [Nat.cast_eq_zero, hn]
    simp [hcast]
  · intro rr hd hr hrs
    unfold init_delay get_crawl_delay
    have hcast : ((rr.seconds : Rat) = 0) = False := by
      simp [Nat.cast_eq_zero, hrs]
    rcases hd with hd | hd
    · rw [hd, hr]
      simp [hcast]
    · rw [hd, hr]
      simp [hcast]
  · intro hd hr
    unfold init_delay get_crawl_delay
    rcases hd with hd | hd
    · rcases hr with hr | ⟨rr, hr, hrs⟩
      · rw [hd, hr]
      · rw [hd, hr]
        simp [hrs]
    · rcases hr with hr | ⟨rr, hr, hrs⟩
      · rw [hd, hr]
        simp
      · rw [hd, hr]
        simp [hrs]

theorem delay_resolution_witness :
    init_delay rpSeven = (7 : Rat) :=
  (delay_resolution rpSeven).1 7 rfl (by decide)

/-- C3 (counterexample): when `rp.read()` raises (e.g. a network
error), the crawler's `except` branch runs (the warning is printed,
initialization continues), yet `can_fetch` afterwards returns `false`
for every URL — the parser was never parsed and `last_checked` is still
0 — contradicting the claimed allow-all fallback. -/
theorem robots_fail_open_cex :
    (RFP.read RobotsFetch.raised).2 = true ∧
    (RFP.read RobotsFetch.raised).1.can_fetch "DocCrawler/1.0"
        "https://docs.example.com/en/index.html" = false :=
  ⟨rfl, rfl⟩

/-- C3 (amended): initialization never aborts on a robots.txt load
failure, but the fallback is fail-closed, not allow-all: if the load
raises, the warning is emitted and `can_fetch` then denies every URL;
the allow-all fallback only happens when the robots.txt request fails
with an HTTP 4xx status other than 401/403 (e.g. 404 for a missing
file), which `RobotFileParser.read` handles internally — with no
exception and hence no warning.  (401/403 instead set disallow-all.) -/
theorem robots_load_failure (agent url : String) :
    ((RFP.read RobotsFetch.raised).1.can_fetch agent url = false ∧
      (RFP.read RobotsFetch.raised).2 = true) ∧
    (∀ code : Nat, 400 ≤ code → code < 500 → code ≠ 401 → code ≠ 403 →
      (RFP.read (RobotsFetch.httpError code)).1.can_fetch agent url = true ∧
      (RFP.read (RobotsFetch.httpError code)).2 = false) := by
  constructor
  · exact ⟨rfl, rfl⟩
  · intro code h1 h2 h3 h4
    have hcond : ¬(code = 401 ∨ code = 403) := by
      rintro (h | h)
      · exact h3 h
      · exact h4 h
    simp only [RFP.read, if_neg hcond, if_pos (And.intro h1 h2)]
    exact ⟨rfl, trivial⟩

theorem robots_load_failure_witness :
    ((RFP.read RobotsFetch.raised).1.can_fetch "DocCrawler/1.0"
        "https://d/x/a.html" = false ∧
      (RFP.read RobotsFetch.raised).2 = true) ∧
    ((RFP.read (RobotsFetch.httpError 404)).1.can_fetch "DocCrawler/1.0"
        "https://d/x/a.html" = true ∧
      (RFP.read (RobotsFetch.httpError 404)).2 = false) :=
  ⟨(robots_load_failure "DocCrawler/1.0" "https://d/x/a.html").1,
    (robots_load_failure "DocCrawler/1.0" "https://d/x/a.html").2 404
      (by decide) (by decide) (by decide) (by decide)⟩

